import Mathlib

/- Formal model of the 2D convolution routine `convolve2D` defined in
`notebooks/unused/03a-example-convolutional-networks.ipynb`:

    def convolve2D(input_image, kernel, padding=1, stride=1):
        nx = input_image.shape[0]
        ny = input_image.shape[1]
        nchannel = input_image.shape[2]
        if padding > 0:
            padded_image = np.zeros((nx + padding * 2, ny + padding * 2, nchannel))
            padded_image[padding:-padding, padding:-padding, :] = input_image
        else:
            padded_image = input_image
        k = kernel.shape[0]
        nx_out = (nx + padding * 2 - k) // stride + 1
        ny_out = (ny + padding * 2 - k) // stride + 1
        output_image = np.zeros((nx_out, ny_out, nchannel))
        for ix_out in np.arange(nx_out):
            for iy_out in np.arange(ny_out):
                ix_in = ix_out * stride
                iy_in = iy_out * stride
                output_image[ix_out, iy_out, :] = \
                    np.tensordot(kernel, padded_image[ix_in:(ix_in + k), iy_in:(iy_in + k), :], axes=2)
        output_image = np.maximum(output_image, 0)
        output_image = np.minimum(output_image, 1)
        return output_image

Modelling choices:
* Floating-point samples are modelled as rationals (exact arithmetic); the
  accumulation order is irrelevant over ℚ, matching the spec's statement of the
  per-window sum.
* Images and kernels are total functions from indices to ℚ together with their
  dimensions; all index accesses performed by `convolve2D` on the inputs the
  theorems quantify over stay inside the declared dimensions, so the values of
  the functions outside those bounds never influence any result below.
* Python's `//` is floor division, modelled by `Int.fdiv`.  `// 0` raises
  `ZeroDivisionError`, and `np.zeros` with a negative dimension raises
  `ValueError` ("negative dimensions are not allowed"); these are the only two
  failure modes the routine can hit on the index ranges exercised here, and they
  are modelled by the `PyError` outcomes of `convolve2D`.
* The final `np.maximum`/`np.minimum` pair clamps every cell of the output
  array; in the model the clamp is applied to each in-range cell of the output
  function (out-of-range indices of the model's output function are 0, a value
  numpy's array simply does not have). -/

namespace ConvNet

/-- A multi-channel 2D image: `nx` rows, `ny` columns, `nchannel` channels,
samples indexed row, column, channel. -/
structure Image where
  nx : Nat
  ny : Nat
  nchannel : Nat
  data : Nat → Nat → Nat → ℚ

/-- A square convolution kernel of side `k`. The Python code only ever reads
`kernel.shape[0]`, so squareness is built into the model. -/
structure Kernel where
  k : Nat
  data : Nat → Nat → ℚ

/-- The final truncation of the routine: `np.maximum(x, 0)` then
`np.minimum(x, 1)`. -/
def clamp01 (x : ℚ) : ℚ := min (max x 0) 1

/-- The padded image built by the `padding` branch of `convolve2D`, as a total
function on integer indices.  For `padding > 0` this is the array
`np.zeros((nx + 2p, ny + 2p, nchannel))` with the input copied to offset
`(p, p)`: inside the copied block the input sample, elsewhere `0`.  For
`padding ≤ 0` the Python code aliases `padded_image = input_image`, so the
access is the input itself (guarded so the model is total; negative indices are
never exercised by the theorems below). -/
def paddedData (img : Image) (padding : ℤ) : ℤ → ℤ → Nat → ℚ :=
  if 0 < padding then
    fun x y ch =>
      if padding ≤ x ∧ x < padding + img.nx ∧ padding ≤ y ∧ y < padding + img.ny then
        img.data (x - padding).toNat (y - padding).toNat ch
      else 0
  else
    fun x y ch =>
      if 0 ≤ x ∧ 0 ≤ y then img.data x.toNat y.toNat ch else 0

/-- The per-pixel inner product
`np.tensordot(kernel, padded_image[ix_in:(ix_in+k), iy_in:(iy_in+k), :], axes=2)`
at channel `ch`: the sum over the `k × k` window of kernel weight times padded
sample. -/
def innerProduct (ker : Kernel) (pd : ℤ → ℤ → Nat → ℚ) (ixIn iyIn : ℤ) (ch : Nat) : ℚ :=
  ∑ a ∈ Finset.range ker.k, ∑ b ∈ Finset.range ker.k,
    ker.data a b * pd (ixIn + a) (iyIn + b) ch

/-- The runtime failures `convolve2D` can raise: `//` by zero
(`ZeroDivisionError`) and `np.zeros` with a negative dimension (`ValueError`,
"negative dimensions are not allowed"). -/
inductive PyError where
  | zeroDivisionError
  | negativeDimensions
deriving DecidableEq

/-- The output-dimension formula of the code,
`(n + padding * 2 - k) // stride + 1`, with Python's floor division. -/
def outDim (n k padding stride : ℤ) : ℤ :=
  (n + padding * 2 - k).fdiv stride + 1

/-- Model of `convolve2D`.  Execution order follows the Python source: the
sizes are read, the padded image is formed, `nx_out`/`ny_out` are computed
(raising `ZeroDivisionError` if `stride = 0`), the output array is allocated
(raising `ValueError` if a computed dimension is negative), every in-range
output cell receives its window inner product, and finally every cell is
clamped to `[0, 1]`. -/
def convolve2D (img : Image) (ker : Kernel) (padding stride : ℤ) :
    Except PyError Image :=
  if stride = 0 then
    .error .zeroDivisionError
  else if outDim img.nx ker.k padding stride < 0 ∨ outDim img.ny ker.k padding stride < 0 then
    .error .negativeDimensions
  else
    .ok ⟨(outDim img.nx ker.k padding stride).toNat,
         (outDim img.ny ker.k padding stride).toNat,
         img.nchannel,
         fun ixOut iyOut ch =>
           if ixOut < (outDim img.nx ker.k padding stride).toNat ∧
              iyOut < (outDim img.ny ker.k padding stride).toNat ∧
              ch < img.nchannel then
             clamp01 (innerProduct ker (paddedData img padding)
               ((ixOut : ℤ) * stride) ((iyOut : ℤ) * stride) ch)
           else 0⟩

/-- Padded image as described by the specification's own words: the image
extended with `p` rows/columns of exact zeros on each border, the original
placed at offset `(p, p)`.  Used only to compare the code against the spec. -/
def specPadded (img : Image) (p : ℤ) (x y : ℤ) (ch : Nat) : ℚ :=
  if p ≤ x ∧ x < p + img.nx ∧ p ≤ y ∧ y < p + img.ny then
    img.data (x - p).toNat (y - p).toNat ch
  else 0

/-- Output value as described by the specification's own words: the clamp to
`[0,1]` of the sum over `0 ≤ a, b < k` of `kernel[a][b] *
padded[i*s+a][j*s+b][ch]`. -/
def specValue (img : Image) (ker : Kernel) (p s : ℤ) (i j ch : Nat) : ℚ :=
  clamp01 (∑ a ∈ Finset.range ker.k, ∑ b ∈ Finset.range ker.k,
    ker.data a b * specPadded img p ((i : ℤ) * s + a) ((j : ℤ) * s + b) ch)

/-! Helper lemmas shared by the claim theorems. -/

lemma fdiv_mul_self_le (E s : ℤ) (hs : 0 < s) : E.fdiv s * s ≤ E := by
  rw [Int.fdiv_eq_ediv _ hs.le]
  exact Int.ediv_mul_le _ hs.ne'

lemma outDim_pos (n k p s : ℤ) (hs : 0 < s) (hfit : 0 ≤ n + p * 2 - k) :
    0 < outDim n k p s := by
  have h := Int.fdiv_nonneg hfit hs.le
  unfold outDim
  omega

lemma convolve2D_eq_ok (img : Image) (ker : Kernel) (p s : ℤ) (hs : s ≠ 0)
    (hx : 0 ≤ outDim img.nx ker.k p s) (hy : 0 ≤ outDim img.ny ker.k p s) :
    convolve2D img ker p s = .ok
      ⟨(outDim img.nx ker.k p s).toNat, (outDim img.ny ker.k p s).toNat, img.nchannel,
       fun ixOut iyOut ch =>
         if ixOut < (outDim img.nx ker.k p s).toNat ∧
            iyOut < (outDim img.ny ker.k p s).toNat ∧ ch < img.nchannel then
           clamp01 (innerProduct ker (paddedData img p) ((ixOut : ℤ) * s) ((iyOut : ℤ) * s) ch)
         else 0⟩ := by
  unfold convolve2D
  rw [if_neg hs, if_neg (by omega)]

lemma clamp01_nonneg (x : ℚ) : 0 ≤ clamp01 x :=
  le_min (le_max_right x 0) zero_le_one

lemma clamp01_le_one (x : ℚ) : clamp01 x ≤ 1 :=
  min_le_right _ _

lemma clamp01_of_mem {x : ℚ} (h0 : 0 ≤ x) (h1 : x ≤ 1) : clamp01 x = x := by
  unfold clamp01
  rw [max_eq_left h0, min_eq_left h1]

/-- C2: for every valid call (R, C, N ≥ 1, square kernel side k ≥ 1, padding
p ≥ 0, stride s ≥ 1, R + 2p − k ≥ 0 and C + 2p − k ≥ 0), `convolve2D` succeeds
and the output image has shape exactly
`((R + 2p − k) // s + 1, (C + 2p − k) // s + 1, N)`, where `//` is Python's
integer division (floor, which agrees with truncation on these non-negative
operands). -/
theorem convolve2D_output_shape (img : Image) (ker : Kernel) (p s : ℤ)
    (hnx : 1 ≤ img.nx) (hny : 1 ≤ img.ny) (hnc : 1 ≤ img.nchannel) (hk : 1 ≤ ker.k)
    (hp : 0 ≤ p) (hs : 1 ≤ s)
    (hxfit : 0 ≤ (img.nx : ℤ) + p * 2 - ker.k) (hyfit : 0 ≤ (img.ny : ℤ) + p * 2 - ker.k) :
    ∃ out, convolve2D img ker p s = .ok out ∧
      (out.nx : ℤ) = ((img.nx : ℤ) + p * 2 - ker.k).fdiv s + 1 ∧
      (out.ny : ℤ) = ((img.ny : ℤ) + p * 2 - ker.k).fdiv s + 1 ∧
      out.nchannel = img.nchannel := by
  have hx := outDim_pos img.nx ker.k p s (by omega) hxfit
  have hy := outDim_pos img.ny ker.k p s (by omega) hyfit
  refine ⟨_, convolve2D_eq_ok img ker p s (by omega) hx.le hy.le, ?_, ?_, rfl⟩
  · show ((outDim img.nx ker.k p s).toNat : ℤ) = _
    rw [Int.toNat_of_nonneg hx.le]
    rfl
  · show ((outDim img.ny ker.k p s).toNat : ℤ) = _
    rw [Int.toNat_of_nonneg hy.le]
    rfl

lemma paddedData_eq_specPadded (img : Image) (p x y : ℤ) (ch : Nat)
    (hp : 0 ≤ p) (hx0 : 0 ≤ x) (hx : x < img.nx + p * 2) (hy0 : 0 ≤ y)
    (hy : y < img.ny + p * 2) :
    paddedData img p x y ch = specPadded img p x y ch := by
  unfold paddedData specPadded
  rcases lt_or_eq_of_le hp with hp' | hp'
  · rw [if_pos hp']
  · rw [if_neg (by omega)]
    have hx' : x < (img.nx : ℤ) := by omega
    have hy' : y < (img.ny : ℤ) := by omega
    rw [if_pos ⟨hx0, hy0⟩, if_pos ⟨by omega, by omega, by omega, by omega⟩]
    rw [← hp']
    simp

/-- C1: for every valid call and every in-range output position `(i, j)` and
channel `ch`, the returned value equals the clamp to [0, 1] of the sum over
`0 ≤ a, b < k` of `kernel[a][b] * padded[i*s+a][j*s+b][ch]`, where `padded` is
the image extended with `p` rows/columns of exact zeros on each border and the
original image at offset `(p, p)` (the right-hand side is `specValue`, stated
from the specification's words). -/
theorem convolve2D_entries_match_spec (img : Image) (ker : Kernel) (p s : ℤ)
    (hnx : 1 ≤ img.nx) (hny : 1 ≤ img.ny) (hnc : 1 ≤ img.nchannel) (hk : 1 ≤ ker.k)
    (hp : 0 ≤ p) (hs : 1 ≤ s)
    (hxfit : 0 ≤ (img.nx : ℤ) + p * 2 - ker.k) (hyfit : 0 ≤ (img.ny : ℤ) + p * 2 - ker.k) :
    ∃ out, convolve2D img ker p s = .ok out ∧
      ∀ i j ch, i < out.nx → j < out.ny → ch < out.nchannel →
        out.data i j ch = specValue img ker p s i j ch := by
  have hs0 : (0 : ℤ) < s := by omega
  have hx := outDim_pos img.nx ker.k p s hs0 hxfit
  have hy := outDim_pos img.ny ker.k p s hs0 hyfit
  refine ⟨_, convolve2D_eq_ok img ker p s (by omega) hx.le hy.le, ?_⟩
  intro i j ch hi hj hch
  dsimp only at hi hj hch ⊢
  rw [if_pos ⟨hi, hj, hch⟩]
  unfold specValue innerProduct
  congr 1
  refine Finset.sum_congr rfl ?_
  intro a ha
  refine Finset.sum_congr rfl ?_
  intro b hb
  rw [Finset.mem_range] at ha hb
  congr 1
  have hiZ : (i : ℤ) < outDim img.nx ker.k p s := Int.lt_toNat.mp hi
  have hjZ : (j : ℤ) < outDim img.ny ker.k p s := Int.lt_toNat.mp hj
  have hifd : (i : ℤ) ≤ ((img.nx : ℤ) + p * 2 - ker.k).fdiv s := by
    unfold outDim at hiZ
    omega
  have hjfd : (j : ℤ) ≤ ((img.ny : ℤ) + p * 2 - ker.k).fdiv s := by
    unfold outDim at hjZ
    omega
  have hib : (i : ℤ) * s ≤ (img.nx : ℤ) + p * 2 - ker.k :=
    le_trans (mul_le_mul_of_nonneg_right hifd hs0.le)
      (fdiv_mul_self_le _ s hs0)
  have hjb : (j : ℤ) * s ≤ (img.ny : ℤ) + p * 2 - ker.k :=
    le_trans (mul_le_mul_of_nonneg_right hjfd hs0.le)
      (fdiv_mul_self_le _ s hs0)
  have hi0 : 0 ≤ (i : ℤ) * s := mul_nonneg (Int.ofNat_nonneg i) hs0.le
  have hj0 : 0 ≤ (j : ℤ) * s := mul_nonneg (Int.ofNat_nonneg j) hs0.le
  exact paddedData_eq_specPadded img p ((i : ℤ) * s + a) ((j : ℤ) * s + b) ch hp
    (by omega) (by omega) (by omega) (by omega)

/-- C3: for every valid call, every element of the output lies in the closed
interval [0, 1]: the final `np.maximum`/`np.minimum` pair clamps each fully
accumulated per-channel sum once, after the accumulation loop. -/
theorem convolve2D_output_mem_unit_interval (img : Image) (ker : Kernel) (p s : ℤ)
    (hnx : 1 ≤ img.nx) (hny : 1 ≤ img.ny) (hnc : 1 ≤ img.nchannel) (hk : 1 ≤ ker.k)
    (hp : 0 ≤ p) (hs : 1 ≤ s)
    (hxfit : 0 ≤ (img.nx : ℤ) + p * 2 - ker.k) (hyfit : 0 ≤ (img.ny : ℤ) + p * 2 - ker.k) :
    ∃ out, convolve2D img ker p s = .ok out ∧
      ∀ i j ch, 0 ≤ out.data i j ch ∧ out.data i j ch ≤ 1 := by
  have hx := outDim_pos img.nx ker.k p s (by omega) hxfit
  have hy := outDim_pos img.ny ker.k p s (by omega) hyfit
  refine ⟨_, convolve2D_eq_ok img ker p s (by omega) hx.le hy.le, ?_⟩
  intro i j ch
  dsimp only
  split
  · exact ⟨clamp01_nonneg _, clamp01_le_one _⟩
  · exact ⟨le_refl 0, zero_le_one⟩

lemma fdiv_lt_zero_of_neg {E s : ℤ} (hs : 0 < s) (h : E < 0) : E.fdiv s < 0 := by
  rw [Int.fdiv_eq_ediv _ hs.le, Int.ediv_lt_iff_lt_mul hs]
  omega

lemma neg_one_le_fdiv {E s : ℤ} (hs : 0 < s) (h : -s ≤ E) : -1 ≤ E.fdiv s := by
  rw [Int.fdiv_eq_ediv _ hs.le, Int.le_ediv_iff_mul_le hs]
  omega

lemma fdiv_lt_neg_one {E s : ℤ} (hs : 0 < s) (h : E < -s) : E.fdiv s < -1 := by
  rw [Int.fdiv_eq_ediv _ hs.le, Int.ediv_lt_iff_lt_mul hs]
  omega

/-! Concrete inputs used by counterexamples and witnesses. -/

/-- A 4×4 single-channel image, every sample 1/2. -/
def img44 : Image := ⟨4, 4, 1, fun _ _ _ => 1 / 2⟩

/-- A 4-row, 1-column single-channel image. -/
def img41 : Image := ⟨4, 1, 1, fun _ _ _ => 1 / 2⟩

/-- A 3×3 single-channel image, every sample 1/2. -/
def img33 : Image := ⟨3, 3, 1, fun _ _ _ => 1 / 2⟩

/-- A 5×5 single-channel image, every sample 1/2. -/
def img55 : Image := ⟨5, 5, 1, fun _ _ _ => 1 / 2⟩

/-- The 1×1 all-ones kernel. -/
def ker1 : Kernel := ⟨1, fun _ _ => 1⟩

/-- The 3×3 all-ones kernel. -/
def ker3 : Kernel := ⟨3, fun _ _ => 1⟩

/-- The 5×5 all-ones kernel. -/
def ker5 : Kernel := ⟨5, fun _ _ => 1⟩

/-- The 7×7 all-ones kernel. -/
def ker7 : Kernel := ⟨7, fun _ _ => 1⟩

/-- C4 counterexample: the claim's own example — a 4×4 image, kernel side 5,
padding 0 (stride 1) — does not fail at all: `nx_out = (4−5)//1+1 = 0`, so
`np.zeros((0,0,1))` allocates an empty output and the call returns it. -/
theorem kernel_larger_than_image_returns_ok :
    (convolve2D img44 ker5 0 1).isOk = true := rfl

/-- C4 (amended): `convolve2D` fails only when a computed output dimension is
negative — with stride s ≥ 1, when `R + 2p − k < −s` or `C + 2p − k < −s` —
and then with numpy's negative-dimension `ValueError`, not a dedicated
`InvalidDimensions` kind; when `−s ≤ R + 2p − k < 0` the call instead returns
an empty output. -/
theorem convolve2D_error_when_dim_negative (img : Image) (ker : Kernel) (p s : ℤ)
    (hs : 1 ≤ s)
    (h : (img.nx : ℤ) + p * 2 - ker.k < -s ∨ (img.ny : ℤ) + p * 2 - ker.k < -s) :
    convolve2D img ker p s = .error .negativeDimensions := by
  have hs0 : (0 : ℤ) < s := by omega
  have hdim : outDim img.nx ker.k p s < 0 ∨ outDim img.ny ker.k p s < 0 := by
    rcases h with h | h
    · have := fdiv_lt_neg_one hs0 h
      left
      unfold outDim
      omega
    · have := fdiv_lt_neg_one hs0 h
      right
      unfold outDim
      omega
  unfold convolve2D
  rw [if_neg (by omega : ¬ s = 0), if_pos hdim]

/-- C5 counterexample: a negative stride is not rejected: with a 3×3 image,
kernel side 3, padding 0 and stride −1, `nx_out = 0//(-1)+1 = 1`, the call
computes a 1×1 output and returns it successfully. -/
theorem negative_stride_returns_ok :
    (convolve2D img33 ker3 0 (-1)).isOk = true := rfl

/-- C5 (amended): only stride exactly 0 makes `convolve2D` fail, and then with
Python's `ZeroDivisionError` from the `nx_out` computation — the first
computation after reading the shapes, so before any pixel is computed; there is
no `InvalidStride` validation, and negative strides are not rejected. -/
theorem convolve2D_zero_stride_error (img : Image) (ker : Kernel) (p : ℤ) :
    convolve2D img ker p 0 = .error .zeroDivisionError := by
  unfold convolve2D
  rw [if_pos rfl]

/-- C6 counterexample: negative padding is silently accepted: with a 4×4 image,
a 1×1 kernel, padding −1 and stride 1, the call succeeds (the `padding > 0`
test fails, so no padding is applied, and `nx_out = (4−2−1)//1+1 = 2`). -/
theorem negative_padding_returns_ok :
    (convolve2D img44 ker1 (-1) 1).isOk = true := rfl

/-- C6 (amended): `convolve2D` never validates padding: for padding p < 0
(stride ≥ 1 and output extents still non-negative) the call succeeds, the
`padding > 0` branch is not taken (no zeros are added), and the negative
padding merely shrinks the output dimensions through the `(n + 2p − k)//s + 1`
formula — there is no `InvalidPadding` failure outcome. -/
theorem convolve2D_negative_padding_no_error (img : Image) (ker : Kernel) (p s : ℤ)
    (hp : p < 0) (hs : 1 ≤ s)
    (hxfit : 0 ≤ (img.nx : ℤ) + p * 2 - ker.k) (hyfit : 0 ≤ (img.ny : ℤ) + p * 2 - ker.k) :
    ∃ out, convolve2D img ker p s = .ok out ∧
      (out.nx : ℤ) = ((img.nx : ℤ) + p * 2 - ker.k).fdiv s + 1 ∧
      (out.ny : ℤ) = ((img.ny : ℤ) + p * 2 - ker.k).fdiv s + 1 := by
  have hx := outDim_pos img.nx ker.k p s (by omega) hxfit
  have hy := outDim_pos img.ny ker.k p s (by omega) hyfit
  refine ⟨_, convolve2D_eq_ok img ker p s (by omega) hx.le hy.le, ?_, ?_⟩
  · show ((outDim img.nx ker.k p s).toNat : ℤ) = _
    rw [Int.toNat_of_nonneg hx.le]
    rfl
  · show ((outDim img.ny ker.k p s).toNat : ℤ) = _
    rw [Int.toNat_of_nonneg hy.le]
    rfl

/-- C7: stride truncation, not an error: for every valid call — with no
divisibility requirement on the stride at all — `convolve2D` succeeds and the
output extents are the floor-truncated `(n + 2p − k)//s + 1`, silently dropping
any trailing partial placement. -/
theorem convolve2D_stride_truncation (img : Image) (ker : Kernel) (p s : ℤ)
    (hnx : 1 ≤ img.nx) (hny : 1 ≤ img.ny) (hnc : 1 ≤ img.nchannel) (hk : 1 ≤ ker.k)
    (hp : 0 ≤ p) (hs : 1 ≤ s)
    (hxfit : 0 ≤ (img.nx : ℤ) + p * 2 - ker.k) (hyfit : 0 ≤ (img.ny : ℤ) + p * 2 - ker.k) :
    ∃ out, convolve2D img ker p s = .ok out ∧
      (out.nx : ℤ) = ((img.nx : ℤ) + p * 2 - ker.k).fdiv s + 1 ∧
      (out.ny : ℤ) = ((img.ny : ℤ) + p * 2 - ker.k).fdiv s + 1 := by
  have hx := outDim_pos img.nx ker.k p s (by omega) hxfit
  have hy := outDim_pos img.ny ker.k p s (by omega) hyfit
  refine ⟨_, convolve2D_eq_ok img ker p s (by omega) hx.le hy.le, ?_, ?_⟩
  · show ((outDim img.nx ker.k p s).toNat : ℤ) = _
    rw [Int.toNat_of_nonneg hx.le]
    rfl
  · show ((outDim img.ny ker.k p s).toNat : ℤ) = _
    rw [Int.toNat_of_nonneg hy.le]
    rfl

lemma paddedData_zero_padding (img : Image) (i j ch : Nat) :
    paddedData img 0 ((i : ℤ)) ((j : ℤ)) ch = img.data i j ch := by
  unfold paddedData
  rw [if_neg (lt_irrefl 0)]
  simp

/-- C8: convolving any image (R, C, N ≥ 1) with the 1×1 kernel whose single
value is 1, using padding 0 and stride 1, succeeds, preserves the shape, and
every in-range output element equals the corresponding input element clamped to
[0, 1]; in particular, when all input samples already lie in [0, 1], the output
equals the input exactly. -/
theorem convolve2D_identity_kernel (img : Image) (ker : Kernel)
    (hnx : 1 ≤ img.nx) (hny : 1 ≤ img.ny) (hnc : 1 ≤ img.nchannel)
    (hk : ker.k = 1) (hv : ker.data 0 0 = 1) :
    ∃ out, convolve2D img ker 0 1 = .ok out ∧
      out.nx = img.nx ∧ out.ny = img.ny ∧ out.nchannel = img.nchannel ∧
      (∀ i j ch, i < img.nx → j < img.ny → ch < img.nchannel →
        out.data i j ch = clamp01 (img.data i j ch)) ∧
      ((∀ i j ch, i < img.nx → j < img.ny → ch < img.nchannel →
          0 ≤ img.data i j ch ∧ img.data i j ch ≤ 1) →
        ∀ i j ch, i < img.nx → j < img.ny → ch < img.nchannel →
          out.data i j ch = img.data i j ch) := by
  have houtx : outDim img.nx ker.k 0 1 = (img.nx : ℤ) := by
    unfold outDim
    rw [hk, Int.fdiv_one]
    omega
  have houty : outDim img.ny ker.k 0 1 = (img.ny : ℤ) := by
    unfold outDim
    rw [hk, Int.fdiv_one]
    omega
  have htx : (outDim img.nx ker.k 0 1).toNat = img.nx := by
    rw [houtx]
    exact Int.toNat_ofNat img.nx
  have hty : (outDim img.ny ker.k 0 1).toNat = img.ny := by
    rw [houty]
    exact Int.toNat_ofNat img.ny
  have heq := convolve2D_eq_ok img ker 0 1 one_ne_zero
    (by rw [houtx]; exact Int.ofNat_nonneg _) (by rw [houty]; exact Int.ofNat_nonneg _)
  have hval : ∀ i j ch, i < img.nx → j < img.ny → ch < img.nchannel →
      (if i < (outDim img.nx ker.k 0 1).toNat ∧ j < (outDim img.ny ker.k 0 1).toNat ∧
          ch < img.nchannel then
        clamp01 (innerProduct ker (paddedData img 0) ((i : ℤ) * 1) ((j : ℤ) * 1) ch)
      else 0) = clamp01 (img.data i j ch) := by
    intro i j ch hi hj hch
    rw [if_pos ⟨by rw [htx]; exact hi, by rw [hty]; exact hj, hch⟩]
    congr 1
    unfold innerProduct
    rw [hk]
    rw [Finset.sum_range_one, Finset.sum_range_one, hv, one_mul]
    have harg : ∀ m : Nat, (m : ℤ) * 1 + ((0 : Nat) : ℤ) = (m : ℤ) := by
      intro m
      push_cast
      ring
    rw [harg i, harg j]
    exact paddedData_zero_padding img i j ch
  refine ⟨_, heq, htx, hty, rfl, hval, ?_⟩
  intro hbound i j ch hi hj hch
  dsimp only
  rw [hval i j ch hi hj hch]
  exact clamp01_of_mem (hbound i j ch hi hj hch).1 (hbound i j ch hi hj hch).2

/-- C10 counterexample: the claim's condition is satisfied through its "or" by
a 4-row, 1-column image with kernel side 5 (row extent 4 − 5 = −1 lies in
[−1, 0)), yet the column extent is 1 − 5 = −4, so `ny_out = −3` and the call
raises numpy's negative-dimension `ValueError` instead of returning an empty
image. -/
theorem other_axis_negative_raises :
    convolve2D img41 ker5 0 1 = .error .negativeDimensions := rfl

/-- C10 (amended): with stride s ≥ 1, when both extents satisfy
`−s ≤ n + 2p − k` and at least one is negative, `convolve2D` raises no error
and returns an output whose corresponding spatial dimension is 0, with the
channel count preserved. -/
theorem convolve2D_empty_output (img : Image) (ker : Kernel) (p s : ℤ)
    (hs : 1 ≤ s)
    (hx : -s ≤ (img.nx : ℤ) + p * 2 - ker.k) (hy : -s ≤ (img.ny : ℤ) + p * 2 - ker.k)
    (hneg : (img.nx : ℤ) + p * 2 - ker.k < 0 ∨ (img.ny : ℤ) + p * 2 - ker.k < 0) :
    ∃ out, convolve2D img ker p s = .ok out ∧ out.nchannel = img.nchannel ∧
      ((img.nx : ℤ) + p * 2 - ker.k < 0 → out.nx = 0) ∧
      ((img.ny : ℤ) + p * 2 - ker.k < 0 → out.ny = 0) := by
  have hs0 : (0 : ℤ) < s := by omega
  have hxf := neg_one_le_fdiv hs0 hx
  have hyf := neg_one_le_fdiv hs0 hy
  have hxo : 0 ≤ outDim img.nx ker.k p s := by
    unfold outDim
    omega
  have hyo : 0 ≤ outDim img.ny ker.k p s := by
    unfold outDim
    omega
  refine ⟨_, convolve2D_eq_ok img ker p s (by omega) hxo hyo, rfl, ?_, ?_⟩
  · intro h
    have h1 := fdiv_lt_zero_of_neg hs0 h
    have h2 : outDim img.nx ker.k p s = 0 := by
      unfold outDim
      omega
    show (outDim img.nx ker.k p s).toNat = 0
    rw [h2]
    rfl
  · intro h
    have h1 := fdiv_lt_zero_of_neg hs0 h
    have h2 : outDim img.ny ker.k p s = 0 := by
      unfold outDim
      omega
    show (outDim img.ny ker.k p s).toNat = 0
    rw [h2]
    rfl

/-! Witnesses: each hypothesis-bearing claim theorem applied at a concrete
input, every hypothesis discharged by evaluation. -/

/-- Witness for C1 at a 4×4 image, 3×3 all-ones kernel, padding 1, stride 1. -/
theorem convolve2D_entries_match_spec_witness :
    ∃ out, convolve2D img44 ker3 1 1 = .ok out ∧
      ∀ i j ch, i < out.nx → j < out.ny → ch < out.nchannel →
        out.data i j ch = specValue img44 ker3 1 1 i j ch :=
  convolve2D_entries_match_spec img44 ker3 1 1 (by decide) (by decide) (by decide)
    (by decide) (by decide) (by decide) (by decide) (by decide)

/-- Witness for C2 at a 4×4 image, 3×3 kernel, padding 1, stride 2. -/
theorem convolve2D_output_shape_witness :
    ∃ out, convolve2D img44 ker3 1 2 = .ok out ∧
      (out.nx : ℤ) = ((img44.nx : ℤ) + 1 * 2 - ker3.k).fdiv 2 + 1 ∧
      (out.ny : ℤ) = ((img44.ny : ℤ) + 1 * 2 - ker3.k).fdiv 2 + 1 ∧
      out.nchannel = img44.nchannel :=
  convolve2D_output_shape img44 ker3 1 2 (by decide) (by decide) (by decide)
    (by decide) (by decide) (by decide) (by decide) (by decide)

/-- Witness for C3 at a 3×3 image, 3×3 all-ones kernel, padding 0, stride 1. -/
theorem convolve2D_output_mem_unit_interval_witness :
    ∃ out, convolve2D img33 ker3 0 1 = .ok out ∧
      ∀ i j ch, 0 ≤ out.data i j ch ∧ out.data i j ch ≤ 1 :=
  convolve2D_output_mem_unit_interval img33 ker3 0 1 (by decide) (by decide) (by decide)
    (by decide) (by decide) (by decide) (by decide) (by decide)

/-- Witness for the amended C4 at a 4×4 image with a 7×7 kernel, padding 0,
stride 1 (row extent 4 − 7 = −3 < −1). -/
theorem convolve2D_error_when_dim_negative_witness :
    convolve2D img44 ker7 0 1 = .error .negativeDimensions :=
  convolve2D_error_when_dim_negative img44 ker7 0 1 (by decide) (Or.inl (by decide))

/-- Witness for the amended C6 at a 4×4 image, 1×1 kernel, padding −1,
stride 1. -/
theorem convolve2D_negative_padding_no_error_witness :
    ∃ out, convolve2D img44 ker1 (-1) 1 = .ok out ∧
      (out.nx : ℤ) = ((img44.nx : ℤ) + (-1) * 2 - ker1.k).fdiv 1 + 1 ∧
      (out.ny : ℤ) = ((img44.ny : ℤ) + (-1) * 2 - ker1.k).fdiv 1 + 1 :=
  convolve2D_negative_padding_no_error img44 ker1 (-1) 1 (by decide) (by decide)
    (by decide) (by decide)

/-- Witness for C7 at the 5×5 image with the 3×3 kernel, padding 0, stride 2:
exactly a 2×2 grid of output positions is produced and no error is raised. -/
theorem convolve2D_stride_truncation_witness :
    ∃ out, convolve2D img55 ker3 0 2 = .ok out ∧ (out.nx : ℤ) = 2 ∧ (out.ny : ℤ) = 2 := by
  obtain ⟨out, h1, h2, h3⟩ := convolve2D_stride_truncation img55 ker3 0 2 (by decide)
    (by decide) (by decide) (by decide) (by decide) (by decide) (by decide) (by decide)
  refine ⟨out, h1, ?_, ?_⟩
  · rw [h2]
    decide
  · rw [h3]
    decide

/-- Witness for C8 at a 4×4 image with the 1×1 kernel of value 1. -/
theorem convolve2D_identity_kernel_witness :
    ∃ out, convolve2D img44 ker1 0 1 = .ok out ∧
      out.nx = img44.nx ∧ out.ny = img44.ny ∧ out.nchannel = img44.nchannel ∧
      (∀ i j ch, i < img44.nx → j < img44.ny → ch < img44.nchannel →
        out.data i j ch = clamp01 (img44.data i j ch)) ∧
      ((∀ i j ch, i < img44.nx → j < img44.ny → ch < img44.nchannel →
          0 ≤ img44.data i j ch ∧ img44.data i j ch ≤ 1) →
        ∀ i j ch, i < img44.nx → j < img44.ny → ch < img44.nchannel →
          out.data i j ch = img44.data i j ch) :=
  convolve2D_identity_kernel img44 ker1 (by decide) (by decide) (by decide) rfl rfl

/-- Witness for the amended C10 at the 4×4 image with a 5×5 kernel, padding 0,
stride 1 (both extents are −1). -/
theorem convolve2D_empty_output_witness :
    ∃ out, convolve2D img44 ker5 0 1 = .ok out ∧ out.nchannel = img44.nchannel ∧
      ((img44.nx : ℤ) + 0 * 2 - ker5.k < 0 → out.nx = 0) ∧
      ((img44.ny : ℤ) + 0 * 2 - ker5.k < 0 → out.ny = 0) :=
  convolve2D_empty_output img44 ker5 0 1 (by decide) (by decide) (by decide)
    (Or.inl (by decide))

end ConvNet

